import Mathlib

/-!
Shallow embedding of the genun-certification repository: the ICRC-7 token
ledger canister (src/icrc7/src/lib.rs) and the CertificationNFT
access-control facade canister (src/genun_backend/src/lib.rs).

Machine integers (u128, u64) are modelled as Nat with explicit wrapping
where the source may overflow. Rust HashMaps and the stable token map are
modelled as total functions into Option, except the facade manager map,
which is an association list so that get_managers is executable.
-/

/-- An opaque caller principal, modelled as a byte string (the reference
host uses byte strings of up to 29 bytes). Only equality is ever used. -/
structure Principal where
  bytes : List Nat
deriving DecidableEq, Repr

/-- The distinguished anonymous principal (byte 0x04 on the reference host). -/
def Principal.anonymous : Principal := ⟨[4]⟩

/-- A 32-byte subaccount identifier, modelled as a byte list; only equality
is ever used by the code. -/
abbrev Subaccount := List Nat

/-- An ICRC ledger account: owning principal plus optional subaccount
(icrc_nft_types::Account). Equal iff both fields are equal. -/
structure Account where
  owner : Principal
  subaccount : Option Subaccount
deriving DecidableEq, Repr

/-- Modelled from the spec: the Token record of state.rs (not under src/);
spec section 3 gives `{id, owner, name, description, logo}` with `owner` the
only mutable field. -/
structure Token where
  id : Nat
  owner : Account
  name : String
  description : Option String
  logo : Option String
deriving DecidableEq, Repr

/-- Modelled from the spec: Token::new of state.rs (not under src/). The
call site in lib.rs is `Token::new(new_id, owner, name, logo, description)`;
the constructor populates the record fields. -/
def Token.new (id : Nat) (owner : Account) (name : String)
    (logo : Option String) (description : Option String) : Token :=
  { id := id, owner := owner, name := name, description := description, logo := logo }

/-- Modelled from the spec: token.transfer(to) of state.rs (not under src/);
spec section 4.1 step (d): set `token.owner = to`. -/
def Token.transfer (t : Token) («to» : Account) : Token :=
  { t with owner := «to» }

/-- The u128 modulus: Rust u128 arithmetic in the ledger wraps at 2^128. -/
def U128MOD : Nat := 2 ^ 128

/-- The ledger canister state relevant to the claims: the collection
metadata fields read or written by the embedded operations
(base_token_uri, next_token_id from COLLECTION_METADATA) and TOKEN_MAP,
the stable map from token id to token. -/
structure LedgerState where
  base_token_uri : String
  next_token_id : Nat
  token_map : Nat → Option Token

/-- Ledger state right after icrc7's init: base_token_uri is set to the
empty string, next_token_id to 1, and the stable token map is empty. -/
def initState : LedgerState :=
  { base_token_uri := "", next_token_id := 1, token_map := fun _ => none }

/-- get_next_token_id: reads next_token_id from the metadata and stores it
back incremented (u128 wrapping), returning the old value. -/
def get_next_token_id (s : LedgerState) : Nat × LedgerState :=
  (s.next_token_id, { s with next_token_id := (s.next_token_id + 1) % U128MOD })

/-- Argument record of the ledger mint endpoint. -/
structure MintArgs where
  owner : Account
  name : String
  description : Option String
  logo : Option String
deriving DecidableEq, Repr

/-- The error message of mint's insert-conflict branch. -/
def mintFailMsg : String := "Failed to insert token"

/-- mint: allocates the next id, builds the token, and inserts it into
TOKEN_MAP. The insert always executes; the call succeeds iff the map held
no previous token at that id (StableBTreeMap::insert returns the old
value, and the code tests is_none on it). -/
def mint (args : MintArgs) (s : LedgerState) : Except String Nat × LedgerState :=
  let p := get_next_token_id s
  let new_id := p.1
  let s1 := p.2
  let token := Token.new new_id args.owner args.name args.logo args.description
  let old := s1.token_map new_id
  let s2 := { s1 with token_map := fun k => if k = new_id then some token else s1.token_map k }
  if old.isNone then (Except.ok new_id, s2) else (Except.error mintFailMsg, s2)

/-- A sequence of calls to the mint endpoint, threading the canister state;
each element of the result list is the corresponding call's return value. -/
def mintSeq : List MintArgs → LedgerState → List (Except String Nat) × LedgerState
  | [], s => ([], s)
  | a :: rest, s =>
    let p := mint a s
    let q := mintSeq rest p.2
    (p.1 :: q.1, q.2)

/-- base_uri: fails when the stored base_token_uri is the empty string,
otherwise returns it. -/
def base_uri (s : LedgerState) : Except String String :=
  if s.base_token_uri.isEmpty then Except.error "Base URI is not set"
  else Except.ok s.base_token_uri

/-- set_base_uri: unconditionally overwrites base_token_uri; the closure
always runs, so success is always true and the call returns Ok. -/
def set_base_uri (uri : String) (s : LedgerState) : Except String Unit × LedgerState :=
  (Except.ok (), { s with base_token_uri := uri })

/-- token_uri: NonExistentToken when the id is absent from TOKEN_MAP;
otherwise the empty string when the base URI is unset, else the base URI
with the decimal token id appended (format with Display for u128). -/
def token_uri (token_id : Nat) (s : LedgerState) : Except String String :=
  if (s.token_map token_id).isSome then
    if s.base_token_uri.isEmpty then Except.ok ""
    else Except.ok (s.base_token_uri ++ toString token_id)
  else Except.error "NonExistentToken"

/-- One element of the icrc7_transfer argument vector
(icrc_nft_types TransferArg). -/
structure TransferArg where
  token_id : Nat
  from_subaccount : Option Subaccount
  «to» : Account
  memo : Option (List Nat)
  created_at_time : Option Nat
deriving DecidableEq, Repr

/-- The error message of the Unauthorized branch of icrc7_transfer. -/
def unauthorizedMsg : String :=
  "Unauthorized: Only the token owner can transfer the token."

/-- The error message of the self-transfer branch of icrc7_transfer. -/
def invalidTransferMsg : String :=
  "Invalid transfer: Cannot transfer to the same account."

/-- The error message of the missing-token branch of icrc7_transfer. -/
def nonExistentMsg : String :=
  "NonExistingTokenId: The specified token does not exist."

/-- The body of icrc7_transfer's per-element loop: look the token up and
clone it; error if absent; error if the caller principal or the
from_subaccount does not match the token's owner account; error if the
destination equals the owner account; otherwise set the owner to the
destination and insert the updated token back under its id field. -/
def transferOne (caller : Account) (s : LedgerState) (arg : TransferArg) :
    Except String Nat × LedgerState :=
  match s.token_map arg.token_id with
  | some token =>
    if token.owner.owner ≠ caller.owner ∨ token.owner.subaccount ≠ arg.from_subaccount then
      (Except.error unauthorizedMsg, s)
    else if token.owner = arg.«to» then
      (Except.error invalidTransferMsg, s)
    else
      let token1 := token.transfer arg.«to»
      (Except.ok token1.id,
        { s with token_map := fun k => if k = token1.id then some token1 else s.token_map k })
  | none => (Except.error nonExistentMsg, s)

/-- icrc7_transfer: processes the argument vector element by element in
order, accumulating one result per element and threading TOKEN_MAP. -/
def icrc7_transfer (caller : Account) (args : List TransferArg) (s : LedgerState) :
    List (Except String Nat) × LedgerState :=
  match args with
  | [] => ([], s)
  | arg :: rest =>
    let p := transferOne caller s arg
    let q := icrc7_transfer caller rest p.2
    (p.1 :: q.1, q.2)

/-- Argument record of the ledger mint_batch endpoint. -/
structure MintBatchArgs where
  owners : List Account
  names : List String
  descriptions : List (Option String)
  logos : List (Option String)
deriving Repr

/-- Vec::resize(n, pad): truncates to n when longer, extends with copies
of pad when shorter. -/
def vecResize (l : List α) (n : Nat) (pad : α) : List α :=
  if n ≤ l.length then l.take n else l ++ List.replicate (n - l.length) pad

/-- The length-normalization step of mint_batch on one sequence: when the
length differs from owners.len(), resize to it padding with the last
element (or the given default when the sequence is empty). -/
def normalizeSeq (owners_len : Nat) (dflt : α) (l : List α) : List α :=
  if l.length ≠ owners_len then vecResize l owners_len (l.getLast?.getD dflt) else l

/-- The error message of mint_batch's post-normalization length check. -/
def lengthMismatchMsg : String := "Input vector lengths do not match"

/-- The mint loop of mint_batch over the zipped, equal-length input
sequences: mint each entry in order; collect the ids; on the first mint
error return that error at once, leaving the state as the failing mint
left it. (The lists are zipped because the Rust loop indexes all four
vectors with the same index after the equal-length check.) -/
def mintLoop : List (Account × String × Option String × Option String) →
    LedgerState → Except String (List Nat) × LedgerState
  | [], s => (Except.ok [], s)
  | e :: rest, s =>
    let p := mint { owner := e.1, name := e.2.1, description := e.2.2.1, logo := e.2.2.2 } s
    match p.1 with
    | Except.ok id =>
      let q := mintLoop rest p.2
      match q.1 with
      | Except.ok ids => (Except.ok (id :: ids), q.2)
      | Except.error err => (Except.error err, q.2)
    | Except.error err => (Except.error err, p.2)

/-- mint_batch: resize names (default: empty string), descriptions and
logos (default: None) to owners.len() when their lengths differ, fail with
the length-mismatch error if the lengths still differ, then run the mint
loop over the entries in input order. -/
def mint_batch (args : MintBatchArgs) (s : LedgerState) :
    Except String (List Nat) × LedgerState :=
  let owners_len := args.owners.length
  let names := normalizeSeq owners_len "" args.names
  let descriptions := normalizeSeq owners_len none args.descriptions
  let logos := normalizeSeq owners_len none args.logos
  if owners_len ≠ names.length ∨ owners_len ≠ descriptions.length ∨
      owners_len ≠ logos.length then
    (Except.error lengthMismatchMsg, s)
  else
    mintLoop (args.owners.zip (names.zip (descriptions.zip logos))) s

/-- The facade's HashMap from Principal to bool, as an association list
with at most one binding per key (insert updates in place or appends), so
that get_managers is executable. -/
def ManagerMap := List (Principal × Bool)

/-- HashMap::get on the manager map. -/
def ManagerMap.get : ManagerMap → Principal → Option Bool
  | [], _ => none
  | e :: rest, p => if e.1 = p then some e.2 else ManagerMap.get rest p

/-- HashMap::insert on the manager map: replace the existing binding or
append a new one. -/
def ManagerMap.insert : ManagerMap → Principal → Bool → ManagerMap
  | [], p, b => [(p, b)]
  | e :: rest, p, b =>
    if e.1 = p then (p, b) :: rest else e :: ManagerMap.insert rest p b

/-- The CertificationNFT state of the facade canister. The token-related
fields are initialized empty and never touched by any endpoint in the
source; they are carried for fidelity. -/
structure CertificationNFT where
  owner : Principal
  is_manager : ManagerMap
  token_owner : Nat → Option Principal
  owned_tokens : Principal → List Nat
  tokens : Nat → Option Principal
  next_token_id : Nat

/-- CertificationNFT::grant_manager with the ambient ic_cdk::caller() made
explicit: only the owner may grant; granting an existing manager fails;
otherwise the target's flag is set to true. -/
def CertificationNFT.grant_manager (c : CertificationNFT) (caller target : Principal) :
    Except String Unit × CertificationNFT :=
  if c.owner ≠ caller then (Except.error "UnauthorizedGrantManager", c)
  else if c.is_manager.get target = some true then
    (Except.error "Error: Already a manager", c)
  else (Except.ok (), { c with is_manager := c.is_manager.insert target true })

/-- CertificationNFT::revoke_manager with the caller explicit: the checks
run in source order: caller must be the owner, the target must not be the
owner, the target must be present with flag true; then the flag is set to
false. -/
def CertificationNFT.revoke_manager (c : CertificationNFT) (caller target : Principal) :
    Except String Unit × CertificationNFT :=
  if c.owner ≠ caller then (Except.error "UnauthorizedRevokeManager", c)
  else if c.owner = target then (Except.error "CannotRevokeOwnerFromManager", c)
  else if c.is_manager.get target ≠ some true then
    (Except.error "InvalidRevokeManager", c)
  else (Except.ok (), { c with is_manager := c.is_manager.insert target false })

/-- CertificationNFT::get_managers: the principals whose flag is true, in
map order. -/
def CertificationNFT.get_managers (c : CertificationNFT) : List Principal :=
  (c.is_manager.filter (fun e => e.2)).map (fun e => e.1)

/-- CertificationNFT::is_caller_manager: Ok when the caller's flag is true
(absence counts as false), else the supplied error string. -/
def CertificationNFT.is_caller_manager (c : CertificationNFT) (caller : Principal)
    (custom_error : String) : Except String Unit :=
  if (c.is_manager.get caller).getD false then Except.ok ()
  else Except.error custom_error

/-- The contract built by the facade's init: the caller becomes owner and
is granted the manager flag; all token maps start empty and next_token_id
starts at 1. -/
def initContract (caller : Principal) : CertificationNFT :=
  { owner := caller
    is_manager := ManagerMap.insert [] caller true
    token_owner := fun _ => none
    owned_tokens := fun _ => []
    tokens := fun _ => none
    next_token_id := 1 }

/-- The message returned by every facade endpoint when the singleton STATE
still holds None. -/
def notInitializedMsg : String := "Contract not initialized"

/-- Outcome of an inter-canister call carrying a payload of type α: the
outer layer is the transport (Err models the call mechanism failing with
the given detail), the payload is the remote canister's reply. -/
def RemoteOutcome (α : Type) := Except String α

/-- The grantManager endpoint: NotInitialized when STATE is None, else the
contract method, writing the updated contract back. -/
def facade_grantManager (st : Option CertificationNFT) (caller target : Principal) :
    Except String Unit × Option CertificationNFT :=
  match st with
  | none => (Except.error notInitializedMsg, none)
  | some c =>
    let p := c.grant_manager caller target
    (p.1, some p.2)

/-- The revokeManager endpoint: NotInitialized when STATE is None, else
the contract method, writing the updated contract back. -/
def facade_revokeManager (st : Option CertificationNFT) (caller target : Principal) :
    Except String Unit × Option CertificationNFT :=
  match st with
  | none => (Except.error notInitializedMsg, none)
  | some c =>
    let p := c.revoke_manager caller target
    (p.1, some p.2)

/-- The get_owner query: the contract owner, or the anonymous principal
when STATE is None. -/
def facade_get_owner (st : Option CertificationNFT) : Principal :=
  match st with
  | none => Principal.anonymous
  | some c => c.owner

/-- The get_managers query: the contract's manager list, or the empty
vector when STATE is None. -/
def facade_get_managers (st : Option CertificationNFT) : List Principal :=
  match st with
  | none => []
  | some c => c.get_managers

/-- Maps a remote Result<String,String> reply as call_icrc7_base_uri does:
transport failures become a formatted error, remote errors pass through. -/
def mapRemoteStringResult (label : String) (remote : RemoteOutcome (Except String String)) :
    Except String String :=
  match remote with
  | Except.ok (Except.ok uri) => Except.ok uri
  | Except.ok (Except.error e) => Except.error e
  | Except.error e => Except.error ("Failed to call " ++ label ++ ": " ++ e)

/-- The baseURI endpoint: NotInitialized when STATE is None; otherwise the
cloned contract forwards to the ledger's base_uri (no manager check: the
check in call_icrc7_base_uri is commented out), the remote outcome
abstracted as an oracle. -/
def facade_baseURI (st : Option CertificationNFT)
    (remote : RemoteOutcome (Except String String)) : Except String String :=
  match st with
  | none => Except.error notInitializedMsg
  | some _ => mapRemoteStringResult "base_uri" remote

/-- The setBaseURI endpoint: NotInitialized when STATE is None; otherwise
call_icrc7_set_base_uri checks the manager role and forwards. -/
def facade_setBaseURI (st : Option CertificationNFT) (caller : Principal) (_uri : String)
    (remote : RemoteOutcome (Except String Unit)) : Except String Unit :=
  match st with
  | none => Except.error notInitializedMsg
  | some c =>
    match c.is_caller_manager caller "UnauthorizedSetBaseURI" with
    | Except.error e => Except.error e
    | Except.ok _ =>
      match remote with
      | Except.ok (Except.ok _) => Except.ok ()
      | Except.ok (Except.error e) => Except.error e
      | Except.error e => Except.error ("Failed to call set_base_uri: " ++ e)

/-- The tokenURI endpoint: NotInitialized when STATE is None; otherwise
call_icrc7_token_uri forwards without a manager check. -/
def facade_tokenURI (st : Option CertificationNFT) (_token_id : Nat)
    (remote : RemoteOutcome (Except String String)) : Except String String :=
  match st with
  | none => Except.error notInitializedMsg
  | some _ => mapRemoteStringResult "token_uri" remote

/-- The mint endpoint: NotInitialized when STATE is None; otherwise
call_icrc7_mint checks the manager role, then maps the remote CustomResult. -/
def facade_mint (st : Option CertificationNFT) (caller : Principal)
    (remote : RemoteOutcome (Except String Nat)) : Except String Nat :=
  match st with
  | none => Except.error notInitializedMsg
  | some c =>
    match c.is_caller_manager caller "UnauthorizedMint" with
    | Except.error e => Except.error e
    | Except.ok _ =>
      match remote with
      | Except.ok (Except.ok id) => Except.ok id
      | Except.ok (Except.error e) => Except.error e
      | Except.error e => Except.error ("Failed to call mint: " ++ e)

/-- The mintBatch endpoint: NotInitialized when STATE is None; otherwise
call_icrc7_mint_batch checks the manager role, then maps the remote
CustomBatchResult. -/
def facade_mintBatch (st : Option CertificationNFT) (caller : Principal)
    (remote : RemoteOutcome (Except String (List Nat))) : Except String (List Nat) :=
  match st with
  | none => Except.error notInitializedMsg
  | some c =>
    match c.is_caller_manager caller "UnauthorizedMint" with
    | Except.error e => Except.error e
    | Except.ok _ =>
      match remote with
      | Except.ok (Except.ok ids) => Except.ok ids
      | Except.ok (Except.error e) => Except.error e
      | Except.error e => Except.error ("Failed to call mint_batch: " ++ e)

/-- The transfer endpoint: NotInitialized when STATE is None; otherwise
call_icrc7_transfer checks the manager role, then forwards the per-element
result vector, mapping transport failures. -/
def facade_transfer (st : Option CertificationNFT) (caller : Principal)
    (remote : RemoteOutcome (List (Except String Nat))) :
    Except String (List (Except String Nat)) :=
  match st with
  | none => Except.error notInitializedMsg
  | some c =>
    match c.is_caller_manager caller "UnauthorizedTransfer" with
    | Except.error e => Except.error e
    | Except.ok _ =>
      match remote with
      | Except.ok rs => Except.ok rs
      | Except.error e => Except.error ("Failed to call icrc7_transfer: " ++ e)

/-- The facade states reachable from initialization: init installs the
initializing caller as owner and manager; thereafter only grantManager and
revokeManager mutate the singleton STATE (every other endpoint clones the
state and never writes it back). -/
inductive FacadeReach : Option CertificationNFT → Prop
  | init (caller : Principal) : FacadeReach (some (initContract caller))
  | grant (st : Option CertificationNFT) (caller target : Principal) :
      FacadeReach st → FacadeReach (facade_grantManager st caller target).2
  | revoke (st : Option CertificationNFT) (caller target : Principal) :
      FacadeReach st → FacadeReach (facade_revokeManager st caller target).2

/-- Agreement of two transfer elements on every field the transfer logic
reads: token_id, from_subaccount and the destination account; memo and
created_at_time are unconstrained. -/
def SameCore (a b : TransferArg) : Prop :=
  a.token_id = b.token_id ∧ a.from_subaccount = b.from_subaccount ∧ a.«to» = b.«to»

/-! Theorems. -/

/-- C8: base_uri fails with the not-set error iff the stored base token
URI is empty; token_uri fails with NonExistentToken exactly on ids absent
from the token map, returns the empty string for an existing id when the
base URI is unset, and otherwise returns the base URI concatenated with
the decimal id; in particular after set_base_uri "https://x/" an existing
token 5 has token_uri "https://x/5". -/
theorem c8_uri_behaviour (s : LedgerState) (tid : Nat) :
    (base_uri s = Except.error "Base URI is not set" ↔ s.base_token_uri = "") ∧
    (s.token_map tid = none → token_uri tid s = Except.error "NonExistentToken") ∧
    ((s.token_map tid).isSome → s.base_token_uri = "" → token_uri tid s = Except.ok "") ∧
    ((s.token_map tid).isSome → s.base_token_uri ≠ "" →
      token_uri tid s = Except.ok (s.base_token_uri ++ toString tid)) ∧
    ((s.token_map 5).isSome →
      token_uri 5 (set_base_uri "https://x/" s).2 = Except.ok ("https://x/" ++ toString 5)) := by
  refine ⟨?_, ?_, ?_, ?_, ?_⟩
  · have hiff := String.isEmpty_iff s.base_token_uri
    unfold base_uri
    by_cases h : s.base_token_uri.isEmpty
    · rw [if_pos h]
      simp [hiff.mp h]
    · rw [if_neg h]
      exact ⟨fun hc => Except.noConfusion hc, fun he => absurd (hiff.mpr he) h⟩
  · intro h; unfold token_uri; simp [h]
  · intro h he; unfold token_uri
    simp [h, String.isEmpty_iff, he]
  · intro h he; unfold token_uri
    have : ¬ s.base_token_uri.isEmpty := by
      simp [String.isEmpty_iff]; exact he
    simp [h, this]
  · intro h; unfold token_uri set_base_uri
    simp only [h, if_true]
    have : ¬ ("https://x/" : String).isEmpty := by decide
    simp [this]

/-- Witness for c8_uri_behaviour at a ledger state holding token 5. -/
theorem c8_uri_behaviour_witness :
    let tok : Token := Token.new 5 ⟨⟨[1]⟩, none⟩ "t" none none
    let s : LedgerState :=
      { base_token_uri := "", next_token_id := 6,
        token_map := fun k => if k = 5 then some tok else none }
    token_uri 5 (set_base_uri "https://x/" s).2 = Except.ok ("https://x/" ++ toString 5) ∧
    token_uri 7 s = Except.error "NonExistentToken" := by
  intro tok s
  exact ⟨(c8_uri_behaviour s 7).2.2.2.2 (by simp [s]),
         (c8_uri_behaviour s 7).2.1 (by simp [s])⟩

/-- C2 counterexample: invoked before initialization (STATE = None),
get_owner does not return a NotInitialized error: it succeeds with the
anonymous principal, and get_managers succeeds with the empty vector. -/
theorem c2_counterexample :
    facade_get_owner none = Principal.anonymous ∧
    facade_get_managers none = ([] : List Principal) :=
  ⟨rfl, rfl⟩

/-- C2 amended: before initialization every update endpoint of the facade
returns the NotInitialized error as data, while the get_owner and
get_managers queries do not error: they return the anonymous principal and
the empty vector respectively. -/
theorem c2_uninitialized_behaviour :
    (∀ caller target : Principal,
      facade_grantManager none caller target = (Except.error notInitializedMsg, none) ∧
      facade_revokeManager none caller target = (Except.error notInitializedMsg, none)) ∧
    (∀ remote, facade_baseURI none remote = Except.error notInitializedMsg) ∧
    (∀ caller uri remote,
      facade_setBaseURI none caller uri remote = Except.error notInitializedMsg) ∧
    (∀ tid remote, facade_tokenURI none tid remote = Except.error notInitializedMsg) ∧
    (∀ caller remote, facade_mint none caller remote = Except.error notInitializedMsg) ∧
    (∀ caller remote, facade_mintBatch none caller remote = Except.error notInitializedMsg) ∧
    (∀ caller remote, facade_transfer none caller remote = Except.error notInitializedMsg) ∧
    facade_get_owner none = Principal.anonymous ∧
    facade_get_managers none = ([] : List Principal) := by
  exact ⟨fun _ _ => ⟨rfl, rfl⟩, fun _ => rfl, fun _ _ _ => rfl, fun _ _ => rfl,
    fun _ _ => rfl, fun _ _ => rfl, fun _ _ => rfl, rfl, rfl⟩

/-- Lookup after insert on the manager map: the inserted key reads back
the inserted flag, every other key is unaffected. -/
theorem managerMap_get_insert (m : ManagerMap) (p q : Principal) (b : Bool) :
    ManagerMap.get (ManagerMap.insert m p b) q =
      if p = q then some b else ManagerMap.get m q := by
  induction m with
  | nil =>
    by_cases h : p = q <;> simp [ManagerMap.insert, ManagerMap.get, h]
  | cons e rest ih =>
    by_cases h1 : e.1 = p
    · by_cases h2 : p = q <;>
        simp [ManagerMap.insert, ManagerMap.get, h1, h2]
    · by_cases h2 : e.1 = q
      · have hpq : ¬ p = q := fun hc => h1 (hc ▸ h2)
        have hqp : ¬ q = p := fun hc => hpq hc.symm
        simp [ManagerMap.insert, ManagerMap.get, h1, h2, hpq, hqp]
      · simp [ManagerMap.insert, ManagerMap.get, h1, h2, ih]

/-- Revoking the owner always fails whatever the caller: the caller check
runs first, so a non-owner caller gets the Unauthorized error and the
owner gets the CannotRevokeOwner error; the contract is unchanged. -/
theorem revoke_owner_always_fails (c : CertificationNFT) (caller : Principal) :
    c.revoke_manager caller c.owner =
      (Except.error (if caller = c.owner then "CannotRevokeOwnerFromManager"
                     else "UnauthorizedRevokeManager"), c) := by
  unfold CertificationNFT.revoke_manager
  by_cases h : c.owner = caller
  · simp [h]
  · have h2 : ¬ caller = c.owner := fun hc => h hc.symm
    simp [h, h2]

/-- grant_manager either leaves the contract unchanged (error branches) or
sets the target's flag to true; the owner field never changes. -/
theorem grant_manager_snd (c : CertificationNFT) (caller target : Principal) :
    (c.grant_manager caller target).2 = c ∨
    (c.grant_manager caller target).2 =
      { c with is_manager := c.is_manager.insert target true } := by
  unfold CertificationNFT.grant_manager
  by_cases h1 : c.owner ≠ caller
  · left; simp [h1]
  · by_cases h2 : c.is_manager.get target = some true
    · left; simp [h1, h2]
    · right; simp [h1, h2]

/-- revoke_manager either leaves the contract unchanged (error branches)
or, for a target that is not the owner, sets the target's flag to false;
the owner field never changes. -/
theorem revoke_manager_snd (c : CertificationNFT) (caller target : Principal) :
    (c.revoke_manager caller target).2 = c ∨
    (c.owner ≠ target ∧
      (c.revoke_manager caller target).2 =
        { c with is_manager := c.is_manager.insert target false }) := by
  unfold CertificationNFT.revoke_manager
  by_cases h1 : c.owner ≠ caller
  · left; simp [h1]
  · by_cases h2 : c.owner = target
    · left
      by_cases h4 : target = caller <;> simp [h1, h2, h4]
    · by_cases h3 : c.is_manager.get target ≠ some true
      · left; simp [h1, h2, h3]
      · right; exact ⟨h2, by simp [h1, h2, h3]⟩

/-- Invariant of the facade: every state reachable from initialization is
initialized, and the owner's manager flag reads back true. -/
theorem facadeReach_owner_flag (st : Option CertificationNFT) (h : FacadeReach st) :
    ∃ c, st = some c ∧ ManagerMap.get c.is_manager c.owner = some true := by
  induction h with
  | init caller =>
    exact ⟨initContract caller, rfl, by simp [initContract, managerMap_get_insert]⟩
  | grant st0 caller target hst ih =>
    obtain ⟨c, rfl, hflag⟩ := ih
    have hsnd : (facade_grantManager (some c) caller target).2 =
        some (c.grant_manager caller target).2 := rfl
    rcases grant_manager_snd c caller target with hcase | hcase
    · exact ⟨c, by rw [hsnd, hcase], hflag⟩
    · refine ⟨(c.grant_manager caller target).2, by rw [hsnd], ?_⟩
      rw [hcase]
      show ManagerMap.get (c.is_manager.insert target true) c.owner = some true
      rw [managerMap_get_insert]
      by_cases ht : target = c.owner
      · simp [ht]
      · simp [ht, hflag]
  | revoke st0 caller target hst ih =>
    obtain ⟨c, rfl, hflag⟩ := ih
    have hsnd : (facade_revokeManager (some c) caller target).2 =
        some (c.revoke_manager caller target).2 := rfl
    rcases revoke_manager_snd c caller target with hcase | ⟨hne, hcase⟩
    · exact ⟨c, by rw [hsnd, hcase], hflag⟩
    · refine ⟨(c.revoke_manager caller target).2, by rw [hsnd], ?_⟩
      rw [hcase]
      show ManagerMap.get (c.is_manager.insert target false) c.owner = some true
      rw [managerMap_get_insert]
      have : ¬ target = c.owner := fun hc => hne hc.symm
      simp [this, hflag]

/-- C3 amended: in every facade state reachable from initialization the
owner's manager flag is true (the owner is never removed from the manager
set), and revoking the owner always fails leaving the state unchanged,
with the CannotRevokeOwner error when the caller is the owner and the
Unauthorized error for any other caller (the caller check runs first). -/
theorem c3_revoke_owner (st : Option CertificationNFT) (h : FacadeReach st) :
    ∃ c, st = some c ∧ ManagerMap.get c.is_manager c.owner = some true ∧
      ∀ caller : Principal,
        facade_revokeManager st caller c.owner =
          (Except.error (if caller = c.owner then "CannotRevokeOwnerFromManager"
                         else "UnauthorizedRevokeManager"), st) := by
  obtain ⟨c, rfl, hflag⟩ := facadeReach_owner_flag st h
  refine ⟨c, rfl, hflag, fun caller => ?_⟩
  have hunfold : facade_revokeManager (some c) caller c.owner =
      ((c.revoke_manager caller c.owner).1, some (c.revoke_manager caller c.owner).2) := rfl
  rw [hunfold, revoke_owner_always_fails]

/-- Witness for c3_revoke_owner: the state just after init by principal 1. -/
theorem c3_revoke_owner_witness :
    ∃ c, some (initContract ⟨[1]⟩) = some c ∧
      ManagerMap.get c.is_manager c.owner = some true ∧
      ∀ caller : Principal,
        facade_revokeManager (some (initContract ⟨[1]⟩)) caller c.owner =
          (Except.error (if caller = c.owner then "CannotRevokeOwnerFromManager"
                         else "UnauthorizedRevokeManager"), some (initContract ⟨[1]⟩)) :=
  c3_revoke_owner (some (initContract ⟨[1]⟩)) (FacadeReach.init ⟨[1]⟩)

/-- C3 counterexample: on the state initialized by principal 1, a caller
other than the owner who tries to revoke the owner receives the
Unauthorized error, not the CannotRevokeOwner error, because the caller
check runs before the owner-target check. -/
theorem c3_counterexample :
    (facade_revokeManager (some (initContract ⟨[1]⟩)) ⟨[2]⟩ ⟨[1]⟩).1 =
      Except.error "UnauthorizedRevokeManager" ∧
    "UnauthorizedRevokeManager" ≠ "CannotRevokeOwnerFromManager" := by
  refine ⟨?_, by decide⟩
  rfl

/-- C4: icrc7_transfer handles the elements one at a time in input order
(the head element is processed on the incoming state, the rest on the
state it leaves); for each element the existence check precedes every
other check, so an absent token id yields the non-existent-token error
whatever the other fields hold, and the authorization check precedes the
self-transfer check, so a token not owned by the caller identity plus
from_subaccount yields the Unauthorized error even when the destination
equals the owner; both error branches return the state unchanged, leaving
the token's owner field untouched. -/
theorem c4_transfer_check_order (caller : Account) (s : LedgerState) (arg : TransferArg)
    (rest : List TransferArg) :
    (icrc7_transfer caller (arg :: rest) s =
      ((transferOne caller s arg).1 ::
        (icrc7_transfer caller rest (transferOne caller s arg).2).1,
       (icrc7_transfer caller rest (transferOne caller s arg).2).2)) ∧
    (s.token_map arg.token_id = none →
      transferOne caller s arg = (Except.error nonExistentMsg, s)) ∧
    (∀ token, s.token_map arg.token_id = some token →
      (token.owner.owner ≠ caller.owner ∨ token.owner.subaccount ≠ arg.from_subaccount) →
      transferOne caller s arg = (Except.error unauthorizedMsg, s)) := by
  refine ⟨rfl, ?_, ?_⟩
  · intro h
    unfold transferOne
    rw [h]
  · intro token h hauth
    unfold transferOne
    rw [h]
    simp only []
    rw [if_pos hauth]

/-- Witness for c4_transfer_check_order: a ledger holding token 1 owned by
principal 1; a lookup of absent id 9 errors NonExistentToken, and caller
principal 2 transferring token 1 errors Unauthorized, state unchanged. -/
theorem c4_transfer_check_order_witness :
    let A : Account := ⟨⟨[1]⟩, none⟩
    let B : Account := ⟨⟨[2]⟩, none⟩
    let tok : Token := Token.new 1 A "t" none none
    let s : LedgerState :=
      { base_token_uri := "", next_token_id := 2,
        token_map := fun k => if k = 1 then some tok else none }
    let argNo : TransferArg := ⟨9, none, A, none, none⟩
    let argUn : TransferArg := ⟨1, none, A, none, none⟩
    transferOne B s argNo = (Except.error nonExistentMsg, s) ∧
    transferOne B s argUn = (Except.error unauthorizedMsg, s) := by
  intro A B tok s argNo argUn
  exact ⟨(c4_transfer_check_order B s argNo []).2.1 rfl,
         (c4_transfer_check_order B s argUn []).2.2 tok rfl (Or.inl (by decide))⟩

/-- C5 counterexample: token 3 is owned by account A; caller B sends a
transfer element whose destination equals the token's current owner A.
The element fails with the Unauthorized error, not the InvalidTransfer
error, because the authorization check runs first. -/
theorem c5_counterexample :
    let A : Account := ⟨⟨[5]⟩, none⟩
    let B : Account := ⟨⟨[6]⟩, none⟩
    let tok : Token := Token.new 3 A "u" none none
    let s : LedgerState :=
      { base_token_uri := "", next_token_id := 4,
        token_map := fun k => if k = 3 then some tok else none }
    let arg : TransferArg := ⟨3, none, A, none, none⟩
    arg.«to» = tok.owner ∧
    icrc7_transfer B [arg] s = ([Except.error unauthorizedMsg], s) ∧
    unauthorizedMsg ≠ invalidTransferMsg := by
  refine ⟨rfl, rfl, by decide⟩

/-- C5 amended: for a transfer element whose token exists and whose caller
is authorized (the token's owner principal equals the caller principal and
the token's owner subaccount equals the element's from_subaccount), a
destination equal to the token's current owner account yields the
InvalidTransfer error and leaves the state unchanged. -/
theorem c5_self_transfer (caller : Account) (s : LedgerState) (arg : TransferArg)
    (token : Token) (h : s.token_map arg.token_id = some token)
    (hown : token.owner.owner = caller.owner)
    (hsub : token.owner.subaccount = arg.from_subaccount)
    (hto : arg.«to» = token.owner) :
    transferOne caller s arg = (Except.error invalidTransferMsg, s) := by
  unfold transferOne
  rw [h]
  simp only []
  rw [if_neg (fun hc => hc.elim (fun h1 => h1 hown) (fun h2 => h2 hsub)),
      if_pos hto.symm]

/-- Witness for c5_self_transfer: the owner of token 3 transfers it to its
own account and receives the InvalidTransfer error. -/
theorem c5_self_transfer_witness :
    let A : Account := ⟨⟨[5]⟩, none⟩
    let tok : Token := Token.new 3 A "u" none none
    let s : LedgerState :=
      { base_token_uri := "", next_token_id := 4,
        token_map := fun k => if k = 3 then some tok else none }
    let arg : TransferArg := ⟨3, none, A, none, none⟩
    transferOne A s arg = (Except.error invalidTransferMsg, s) := by
  intro A tok s arg
  exact c5_self_transfer A s arg tok rfl rfl rfl rfl

/-- The return value of mint: the allocated id on a fresh slot, the
insert-conflict error when the map already held that id. -/
theorem mint_fst (a : MintArgs) (s : LedgerState) :
    (mint a s).1 = if (s.token_map s.next_token_id).isNone
      then Except.ok s.next_token_id else Except.error mintFailMsg := by
  unfold mint get_next_token_id
  by_cases h : (s.token_map s.next_token_id).isNone <;> simp [h]

/-- The state left by mint: next_token_id advanced by one (u128 wrap) and
the freshly built token stored at the allocated id, whether or not the
call reported success (the insert runs before the is_none test). -/
theorem mint_snd (a : MintArgs) (s : LedgerState) :
    (mint a s).2 =
      { base_token_uri := s.base_token_uri,
        next_token_id := (s.next_token_id + 1) % U128MOD,
        token_map := fun k => if k = s.next_token_id then
            some (Token.new s.next_token_id a.owner a.name a.logo a.description)
          else s.token_map k } := by
  unfold mint get_next_token_id
  by_cases h : (s.token_map s.next_token_id).isNone <;> simp [h]

/-- The only error mint can return is the insert-conflict message. -/
theorem mint_error_msg (a : MintArgs) (s : LedgerState) (e : String)
    (h : (mint a s).1 = Except.error e) : e = mintFailMsg := by
  rw [mint_fst] at h
  by_cases hc : (s.token_map s.next_token_id).isNone
  · rw [if_pos hc] at h; exact absurd h (by simp)
  · rw [if_neg hc] at h
    injection h with h1
    exact h1.symm

/-- Vec::resize always produces exactly the requested length. -/
theorem vecResize_length (l : List α) (n : Nat) (pad : α) :
    (vecResize l n pad).length = n := by
  unfold vecResize
  by_cases h : n ≤ l.length
  · rw [if_pos h]
    simp [List.length_take, Nat.min_eq_left h]
  · rw [if_neg h]
    simp only [List.length_append, List.length_replicate]
    omega

/-- The normalization step always produces a sequence of exactly
owners.len() elements, truncating as well as padding. -/
theorem normalizeSeq_length (n : Nat) (dflt : α) (l : List α) :
    (normalizeSeq n dflt l).length = n := by
  unfold normalizeSeq
  by_cases h : l.length ≠ n
  · rw [if_pos h]; exact vecResize_length ..
  · rw [if_neg h]; exact not_not.mp h

/-- The only error the mint loop can return is mint's insert-conflict
message: every failure of the loop is a failure of some mint call. -/
theorem mintLoop_error_msg
    (l : List (Account × String × Option String × Option String))
    (s : LedgerState) (e : String) (h : (mintLoop l s).1 = Except.error e) :
    e = mintFailMsg := by
  induction l generalizing s with
  | nil => exact absurd h (by simp [mintLoop])
  | cons hd tl ih =>
    unfold mintLoop at h
    dsimp only at h
    split at h
    · split at h
      · exact absurd h (by simp)
      · rename_i hq
        injection h with h1
        exact ih _ (h1 ▸ hq)
    · rename_i hm
      injection h with h1
      exact h1 ▸ mint_error_msg _ _ _ hm

/-- mint_batch always reaches the mint loop: after normalization the three
sequences have exactly owners.len() elements, so the length-mismatch guard
is false on every input. -/
theorem mint_batch_eq_mintLoop (args : MintBatchArgs) (s : LedgerState) :
    mint_batch args s =
      mintLoop (args.owners.zip ((normalizeSeq args.owners.length "" args.names).zip
        ((normalizeSeq args.owners.length none args.descriptions).zip
          (normalizeSeq args.owners.length none args.logos)))) s := by
  have h1 := normalizeSeq_length args.owners.length "" args.names
  have h2 := normalizeSeq_length args.owners.length (none : Option String) args.descriptions
  have h3 := normalizeSeq_length args.owners.length (none : Option String) args.logos
  unfold mint_batch
  dsimp only
  rw [if_neg (by simp [h1, h2, h3])]

/-- C9: the post-normalization length-mismatch branch of mint_batch is
unreachable: the resize step makes names, descriptions and logos exactly
owners.len() long (truncating longer sequences and padding shorter ones),
so mint_batch proceeds to the mint loop on every input and never returns
the length-mismatch error (the loop's only error is mint's
insert-conflict message). -/
theorem c9_no_length_mismatch (args : MintBatchArgs) (s : LedgerState) :
    (normalizeSeq args.owners.length "" args.names).length = args.owners.length ∧
    (normalizeSeq args.owners.length none args.descriptions).length = args.owners.length ∧
    (normalizeSeq args.owners.length none args.logos).length = args.owners.length ∧
    mint_batch args s =
      mintLoop (args.owners.zip ((normalizeSeq args.owners.length "" args.names).zip
        ((normalizeSeq args.owners.length none args.descriptions).zip
          (normalizeSeq args.owners.length none args.logos)))) s ∧
    (mint_batch args s).1 ≠ Except.error lengthMismatchMsg := by
  have h1 := normalizeSeq_length args.owners.length "" args.names
  have h2 := normalizeSeq_length args.owners.length (none : Option String) args.descriptions
  have h3 := normalizeSeq_length args.owners.length (none : Option String) args.logos
  have hmb := mint_batch_eq_mintLoop args s
  refine ⟨h1, h2, h3, hmb, ?_⟩
  intro hc
  rw [hmb] at hc
  have := mintLoop_error_msg _ _ _ hc
  exact absurd this (by decide)

/-- Witness for c9_no_length_mismatch at a one-owner batch with all other
sequences empty, from the freshly initialized ledger. -/
theorem c9_no_length_mismatch_witness :
    (mint_batch
      { owners := [⟨⟨[1]⟩, none⟩], names := [], descriptions := [], logos := [] }
      initState).1 ≠ Except.error lengthMismatchMsg :=
  (c9_no_length_mismatch
    { owners := [⟨⟨[1]⟩, none⟩], names := [], descriptions := [], logos := [] }
    initState).2.2.2.2

/-- The mint loop never touches map entries below the incoming
next_token_id: every iteration inserts at the current counter value, which
only moves upward while no wrap occurs. -/
theorem mintLoop_preserves_below
    (l : List (Account × String × Option String × Option String))
    (s : LedgerState) (k : Nat) (hk : k < s.next_token_id)
    (hw : s.next_token_id + l.length < U128MOD) :
    (mintLoop l s).2.token_map k = s.token_map k := by
  induction l generalizing s with
  | nil => rfl
  | cons hd tl ih =>
    simp only [List.length_cons] at hw
    have hsucc : s.next_token_id + 1 < U128MOD := by omega
    have hnext : ∀ a : MintArgs, (mint a s).2.next_token_id = s.next_token_id + 1 := by
      intro a; rw [mint_snd]; exact Nat.mod_eq_of_lt hsucc
    have hmap : ∀ a : MintArgs, (mint a s).2.token_map k = s.token_map k := by
      intro a; rw [mint_snd]; exact if_neg (by omega)
    have hrec : ∀ a : MintArgs, (mintLoop tl (mint a s).2).2.token_map k = s.token_map k := by
      intro a
      rw [ih (mint a s).2 (by rw [hnext]; omega) (by rw [hnext]; omega)]
      exact hmap a
    unfold mintLoop
    dsimp only
    split
    · split
      · exact hrec _
      · exact hrec _
    · exact hmap _

/-- Splitting the contiguous id block of one mint followed by n more. -/
theorem range_map_shift (n b : Nat) :
    (List.range (n+1)).map (fun i => b + i) =
      b :: (List.range n).map (fun i => (b + 1) + i) := by
  rw [List.range_succ_eq_map]
  simp [List.map_map, Function.comp]
  intro a _
  omega

/-- On a state whose map is empty at and above next_token_id and with no
counter wrap, the mint loop succeeds entirely: it returns the contiguous
block of ids starting at the incoming counter, advances the counter by the
number of entries, stores each entry's token at its id, and leaves every
id at or above the final counter vacant. -/
theorem mintLoop_fresh
    (l : List (Account × String × Option String × Option String))
    (s : LedgerState)
    (hfresh : ∀ k, s.next_token_id ≤ k → s.token_map k = none)
    (hw : s.next_token_id + l.length < U128MOD) :
    (mintLoop l s).1 =
      Except.ok ((List.range l.length).map (fun i => s.next_token_id + i)) ∧
    (mintLoop l s).2.next_token_id = s.next_token_id + l.length ∧
    (∀ j, j < l.length →
      ∃ entry, l.get? j = some entry ∧
        (mintLoop l s).2.token_map (s.next_token_id + j) =
          some (Token.new (s.next_token_id + j) entry.1 entry.2.1 entry.2.2.2 entry.2.2.1)) ∧
    (∀ k, s.next_token_id + l.length ≤ k → (mintLoop l s).2.token_map k = none) := by
  induction l generalizing s with
  | nil =>
    refine ⟨rfl, by simp [mintLoop], by simp, ?_⟩
    intro k hk
    exact hfresh k (by simpa using hk)
  | cons hd tl ih =>
    simp only [List.length_cons] at hw ⊢
    have hsucc : s.next_token_id + 1 < U128MOD := by omega
    have hfst : ∀ a : MintArgs, (mint a s).1 = Except.ok s.next_token_id := by
      intro a
      rw [mint_fst, hfresh s.next_token_id (Nat.le_refl _)]
      rfl
    have hnext : ∀ a : MintArgs, (mint a s).2.next_token_id = s.next_token_id + 1 := by
      intro a; rw [mint_snd]; exact Nat.mod_eq_of_lt hsucc
    have hmap : ∀ (a : MintArgs) (k : Nat),
        (mint a s).2.token_map k =
          if k = s.next_token_id then
            some (Token.new s.next_token_id a.owner a.name a.logo a.description)
          else s.token_map k := by
      intro a k; rw [mint_snd]
    have hfresh1 : ∀ a : MintArgs, ∀ k, (mint a s).2.next_token_id ≤ k →
        (mint a s).2.token_map k = none := by
      intro a k hk
      rw [hnext] at hk
      rw [hmap, if_neg (by omega)]
      exact hfresh k (by omega)
    obtain ⟨ih1, ih2, ih3, ih4⟩ :=
      ih (mint ⟨hd.1, hd.2.1, hd.2.2.1, hd.2.2.2⟩ s).2
        (hfresh1 _) (by rw [hnext]; omega)
    have hsplit : mintLoop (hd :: tl) s =
        (Except.ok (s.next_token_id ::
            ((List.range tl.length).map (fun i =>
              (mint ⟨hd.1, hd.2.1, hd.2.2.1, hd.2.2.2⟩ s).2.next_token_id + i))),
         (mintLoop tl (mint ⟨hd.1, hd.2.1, hd.2.2.1, hd.2.2.2⟩ s).2).2) := by
      simp only [mintLoop]
      rw [hfst]
      dsimp only
      rw [ih1]
    refine ⟨?_, ?_, ?_, ?_⟩
    · rw [hsplit]
      rw [range_map_shift tl.length s.next_token_id]
      rw [hnext]
    · rw [hsplit]
      dsimp only
      rw [ih2, hnext]
      omega
    · intro j hj
      cases j with
      | zero =>
        refine ⟨hd, rfl, ?_⟩
        rw [hsplit]
        dsimp only
        simp only [Nat.add_zero]
        rw [mintLoop_preserves_below tl _ s.next_token_id
            (by rw [hnext]; omega) (by rw [hnext]; omega)]
        rw [hmap, if_pos rfl]
      | succ j =>
        obtain ⟨entry, hget, hmapj⟩ := ih3 j (by omega)
        refine ⟨entry, hget, ?_⟩
        rw [hsplit]
        dsimp only
        rw [hnext] at hmapj
        have harith : s.next_token_id + (j+1) = s.next_token_id + 1 + j := by omega
        rw [harith]
        exact hmapj
    · intro k hk
      rw [hsplit]
      dsimp only
      apply ih4
      rw [hnext]
      omega

/-- C7: mint_batch normalizes each input sequence to the length of owners,
padding a shorter sequence by repeating its last element (the default or
absent value when the sequence is empty); with three owners and
names = ["x"] the names become ["x", "x", "x"] and all three tokens mint
successfully with sequential ids, each storing the name "x". -/
theorem c7_mint_batch_padding (s : LedgerState) (A B C : Account)
    (descs logos : List (Option String))
    (hfresh : ∀ k, s.next_token_id ≤ k → s.token_map k = none)
    (hw : s.next_token_id + 3 < U128MOD) :
    (∀ (α : Type) (n : Nat) (dflt : α) (l : List α), l.length ≤ n →
      normalizeSeq n dflt l = l ++ List.replicate (n - l.length) (l.getLast?.getD dflt)) ∧
    normalizeSeq 3 "" ["x"] = ["x", "x", "x"] ∧
    (mint_batch
      { owners := [A, B, C], names := ["x"], descriptions := descs, logos := logos }
      s).1 =
      Except.ok [s.next_token_id, s.next_token_id + 1, s.next_token_id + 2] ∧
    (∀ j, j < 3 →
      ∃ tok,
        (mint_batch
          { owners := [A, B, C], names := ["x"], descriptions := descs, logos := logos }
          s).2.token_map (s.next_token_id + j) = some tok ∧
        tok.name = "x") := by
  have hpad : ∀ (α : Type) (n : Nat) (dflt : α) (l : List α), l.length ≤ n →
      normalizeSeq n dflt l = l ++ List.replicate (n - l.length) (l.getLast?.getD dflt) := by
    intro α n dflt l hle
    unfold normalizeSeq
    by_cases h : l.length ≠ n
    · rw [if_pos h]
      unfold vecResize
      rw [if_neg (by omega)]
    · rw [if_neg h]
      have : n - l.length = 0 := by omega
      rw [this]
      simp
  have hmb := mint_batch_eq_mintLoop
    { owners := [A, B, C], names := ["x"], descriptions := descs, logos := logos } s
  dsimp only at hmb
  have hlen3 : ([A, B, C] : List Account).length = 3 := rfl
  rw [hlen3] at hmb
  set zl := ([A, B, C].zip ((normalizeSeq 3 "" ["x"]).zip
    ((normalizeSeq 3 none descs).zip (normalizeSeq 3 none logos)))) with hzl
  have hzlen : zl.length = 3 := by
    rw [hzl]
    simp [List.length_zip, normalizeSeq_length]
  obtain ⟨hf1, hf2, hf3, hf4⟩ :=
    mintLoop_fresh zl s hfresh (by rw [hzlen]; exact hw)
  refine ⟨hpad, rfl, ?_, ?_⟩
  · rw [hmb, hf1, hzlen]
    simp [List.range_succ]
  · intro j hj
    obtain ⟨entry, hget, hmapj⟩ := hf3 j (by rw [hzlen]; omega)
    refine ⟨_, by rw [hmb]; exact hmapj, ?_⟩
    have hget1 := (List.get?_zip_eq_some _ _ _ _).mp hget
    have hget2 := (List.get?_zip_eq_some _ _ _ _).mp hget1.2
    have hx : (normalizeSeq 3 "" ["x"]).get? j = some "x" := by
      interval_cases j <;> rfl
    rw [hx] at hget2
    have := hget2.1
    injection this with hname
    exact hname.symm

/-- Witness for c7_mint_batch_padding: three concrete owners on the
freshly initialized ledger receive ids 1, 2, 3. -/
theorem c7_mint_batch_padding_witness :
    (mint_batch
      { owners := [⟨⟨[1]⟩, none⟩, ⟨⟨[2]⟩, none⟩, ⟨⟨[3]⟩, none⟩],
        names := ["x"], descriptions := [], logos := [] }
      initState).1 = Except.ok [1, 2, 3] := by
  have h := c7_mint_batch_padding initState ⟨⟨[1]⟩, none⟩ ⟨⟨[2]⟩, none⟩ ⟨⟨[3]⟩, none⟩
    [] [] (fun k _ => rfl) (by norm_num [U128MOD, initState])
  simpa using h.2.2.1

/-- A successful mint returns exactly the incoming counter value. -/
theorem mint_ok_id (a : MintArgs) (s : LedgerState) (id : Nat)
    (h : (mint a s).1 = Except.ok id) : id = s.next_token_id := by
  rw [mint_fst] at h
  by_cases hc : (s.token_map s.next_token_id).isNone
  · rw [if_pos hc] at h
    injection h with h1
    exact h1.symm
  · rw [if_neg hc] at h
    exact absurd h (by simp)

/-- One unfolding step of the mint loop on a nonempty list. -/
theorem mintLoop_cons (hd : Account × String × Option String × Option String)
    (tl : List (Account × String × Option String × Option String)) (s : LedgerState) :
    mintLoop (hd :: tl) s =
      (match (mint ⟨hd.1, hd.2.1, hd.2.2.1, hd.2.2.2⟩ s).1 with
       | Except.ok id =>
         (match (mintLoop tl (mint ⟨hd.1, hd.2.1, hd.2.2.1, hd.2.2.2⟩ s).2).1 with
          | Except.ok ids =>
            (Except.ok (id :: ids),
              (mintLoop tl (mint ⟨hd.1, hd.2.1, hd.2.2.1, hd.2.2.2⟩ s).2).2)
          | Except.error err =>
            (Except.error err,
              (mintLoop tl (mint ⟨hd.1, hd.2.1, hd.2.2.1, hd.2.2.2⟩ s).2).2))
       | Except.error err =>
         (Except.error err, (mint ⟨hd.1, hd.2.1, hd.2.2.1, hd.2.2.2⟩ s).2)) := rfl

/-- When the mint loop fails, it aborted at the first failing mint: there
is an index i such that the whole run equals the run of just the first
i+1 entries, the first i entries minted successfully receiving the
contiguous ids starting at the incoming counter, and the token of every
one of those earlier iterations is still present in the final state. -/
theorem mintLoop_abort
    (l : List (Account × String × Option String × Option String))
    (s : LedgerState) (e : String)
    (hw : s.next_token_id + l.length < U128MOD)
    (herr : (mintLoop l s).1 = Except.error e) :
    ∃ i, i < l.length ∧
      mintLoop l s = mintLoop (l.take (i+1)) s ∧
      (mintLoop (l.take i) s).1 =
        Except.ok ((List.range i).map (fun j => s.next_token_id + j)) ∧
      ∀ j, j < i →
        ∃ entry, l.get? j = some entry ∧
          (mintLoop l s).2.token_map (s.next_token_id + j) =
            some (Token.new (s.next_token_id + j) entry.1 entry.2.1 entry.2.2.2 entry.2.2.1) := by
  induction l generalizing s with
  | nil => exact absurd herr (by simp [mintLoop])
  | cons hd tl ih =>
    simp only [List.length_cons] at hw
    have hsucc : s.next_token_id + 1 < U128MOD := by omega
    have hnext : ∀ a : MintArgs, (mint a s).2.next_token_id = s.next_token_id + 1 := by
      intro a; rw [mint_snd]; exact Nat.mod_eq_of_lt hsucc
    have hmap : ∀ (a : MintArgs) (k : Nat),
        (mint a s).2.token_map k =
          if k = s.next_token_id then
            some (Token.new s.next_token_id a.owner a.name a.logo a.description)
          else s.token_map k := by
      intro a k; rw [mint_snd]
    cases hm : (mint ⟨hd.1, hd.2.1, hd.2.2.1, hd.2.2.2⟩ s).1 with
    | error err =>
      have hl : mintLoop (hd :: tl) s =
          (Except.error err, (mint ⟨hd.1, hd.2.1, hd.2.2.1, hd.2.2.2⟩ s).2) := by
        rw [mintLoop_cons, hm]
      have hl1 : mintLoop [hd] s =
          (Except.error err, (mint ⟨hd.1, hd.2.1, hd.2.2.1, hd.2.2.2⟩ s).2) := by
        rw [mintLoop_cons, hm]
      refine ⟨0, by simp, ?_, by simp [mintLoop], fun j hj => absurd hj (Nat.not_lt_zero j)⟩
      rw [hl]
      rw [show (hd :: tl).take 1 = [hd] from rfl, hl1]
    | ok id =>
      have hid : id = s.next_token_id :=
        mint_ok_id ⟨hd.1, hd.2.1, hd.2.2.1, hd.2.2.2⟩ s id hm
      cases hq : (mintLoop tl (mint ⟨hd.1, hd.2.1, hd.2.2.1, hd.2.2.2⟩ s).2).1 with
      | ok ids =>
        exfalso
        rw [mintLoop_cons, hm, hq] at herr
        exact absurd herr (by simp)
      | error err =>
        have hl : mintLoop (hd :: tl) s =
            (Except.error err,
              (mintLoop tl (mint ⟨hd.1, hd.2.1, hd.2.2.1, hd.2.2.2⟩ s).2).2) := by
          rw [mintLoop_cons, hm, hq]
        have he : err = e := by
          rw [hl] at herr
          exact Except.error.inj herr
        subst he
        obtain ⟨i', hi', habort, hpref, htok⟩ :=
          ih (mint ⟨hd.1, hd.2.1, hd.2.2.1, hd.2.2.2⟩ s).2 (by rw [hnext]; omega) hq
        refine ⟨i' + 1, by simp only [List.length_cons]; omega, ?_, ?_, ?_⟩
        · rw [show (hd :: tl).take (i' + 1 + 1) = hd :: tl.take (i' + 1) from rfl]
          rw [hl, mintLoop_cons, hm, ← habort, hq]
        · rw [show (hd :: tl).take (i' + 1) = hd :: tl.take i' from rfl]
          rw [mintLoop_cons, hm, hpref]
          dsimp only
          rw [hid, range_map_shift i' s.next_token_id]
          rw [hnext]
        · intro j hj
          cases j with
          | zero =>
            refine ⟨hd, rfl, ?_⟩
            rw [hl]
            dsimp only
            simp only [Nat.add_zero]
            rw [mintLoop_preserves_below tl _ s.next_token_id
                (by rw [hnext]; omega) (by rw [hnext]; omega)]
            rw [hmap, if_pos rfl]
          | succ j =>
            obtain ⟨entry, hget, hmapj⟩ := htok j (by omega)
            refine ⟨entry, hget, ?_⟩
            rw [hl]
            dsimp only
            rw [hnext] at hmapj
            rw [show s.next_token_id + (j + 1) = s.next_token_id + 1 + j from by omega]
            exact hmapj

/-- C6: mint_batch applies mints one at a time in input order and aborts
at the first failing mint, returning that mint's error (the whole call
equals running only the first i+1 entries), while the tokens already
inserted by the earlier iterations remain in the ledger state after the
failed call: the non-atomicity is observable. -/
theorem c6_mint_batch_non_atomic (args : MintBatchArgs) (s : LedgerState) (e : String)
    (hw : s.next_token_id + args.owners.length < U128MOD)
    (herr : (mint_batch args s).1 = Except.error e) :
    e = mintFailMsg ∧
    ∃ i, i < args.owners.length ∧
      mint_batch args s =
        mintLoop ((args.owners.zip ((normalizeSeq args.owners.length "" args.names).zip
          ((normalizeSeq args.owners.length none args.descriptions).zip
            (normalizeSeq args.owners.length none args.logos)))).take (i+1)) s ∧
      (mintLoop ((args.owners.zip ((normalizeSeq args.owners.length "" args.names).zip
          ((normalizeSeq args.owners.length none args.descriptions).zip
            (normalizeSeq args.owners.length none args.logos)))).take i) s).1 =
        Except.ok ((List.range i).map (fun j => s.next_token_id + j)) ∧
      ∀ j, j < i →
        ∃ entry, (args.owners.zip ((normalizeSeq args.owners.length "" args.names).zip
            ((normalizeSeq args.owners.length none args.descriptions).zip
              (normalizeSeq args.owners.length none args.logos)))).get? j = some entry ∧
          (mint_batch args s).2.token_map (s.next_token_id + j) =
            some (Token.new (s.next_token_id + j) entry.1 entry.2.1 entry.2.2.2 entry.2.2.1) := by
  have hmb := mint_batch_eq_mintLoop args s
  have hzlen : (args.owners.zip ((normalizeSeq args.owners.length "" args.names).zip
      ((normalizeSeq args.owners.length none args.descriptions).zip
        (normalizeSeq args.owners.length none args.logos)))).length = args.owners.length := by
    simp [List.length_zip, normalizeSeq_length]
  rw [hmb] at herr
  obtain ⟨i, hi, habort, hpref, htok⟩ :=
    mintLoop_abort _ s e (by rw [hzlen]; exact hw) herr
  refine ⟨mintLoop_error_msg _ _ _ herr, i, by rw [hzlen] at hi; exact hi, ?_, hpref, ?_⟩
  · rw [hmb]; exact habort
  · intro j hj
    obtain ⟨entry, hget, hmapj⟩ := htok j hj
    exact ⟨entry, hget, by rw [hmb]; exact hmapj⟩

/-- Witness for c6_mint_batch_non_atomic: a ledger whose map already holds
a token at id 2 with the counter at 1; a batch of two mints succeeds on
the first entry (id 1) and hits the insert conflict on the second, and the
failed call leaves the first entry's token in the ledger. -/
theorem c6_mint_batch_non_atomic_witness :
    let preTok : Token := Token.new 2 ⟨⟨[1]⟩, none⟩ "old" none none
    let s0 : LedgerState :=
      { base_token_uri := "", next_token_id := 1,
        token_map := fun k => if k = 2 then some preTok else none }
    let args0 : MintBatchArgs :=
      { owners := [⟨⟨[1]⟩, none⟩, ⟨⟨[1]⟩, none⟩], names := ["x"],
        descriptions := [], logos := [] }
    let zl := args0.owners.zip ((normalizeSeq args0.owners.length "" args0.names).zip
      ((normalizeSeq args0.owners.length none args0.descriptions).zip
        (normalizeSeq args0.owners.length none args0.logos)))
    mintFailMsg = mintFailMsg ∧
    ∃ i, i < args0.owners.length ∧
      mint_batch args0 s0 = mintLoop (zl.take (i+1)) s0 ∧
      (mintLoop (zl.take i) s0).1 =
        Except.ok ((List.range i).map (fun j => s0.next_token_id + j)) ∧
      ∀ j, j < i →
        ∃ entry, zl.get? j = some entry ∧
          (mint_batch args0 s0).2.token_map (s0.next_token_id + j) =
            some (Token.new (s0.next_token_id + j) entry.1 entry.2.1 entry.2.2.2 entry.2.2.1) := by
  intro preTok s0 args0 zl
  exact c6_mint_batch_non_atomic args0 s0 mintFailMsg
    (by show (1:Nat) + 2 < U128MOD; norm_num [U128MOD])
    (by rfl)

/-- Splitting the block of ok results of one mint followed by n more. -/
theorem range_map_ok_shift (n b : Nat) :
    (List.range (n+1)).map (fun i => (Except.ok (b + i) : Except String Nat)) =
      Except.ok b :: (List.range n).map (fun i => (Except.ok ((b + 1) + i) : Except String Nat)) := by
  rw [List.range_succ_eq_map]
  simp [List.map_map, Function.comp]
  intro a _
  omega

/-- On a state whose map is empty at and above next_token_id and with no
counter wrap, a sequence of mint calls succeeds entirely: the i-th call
returns Ok of the incoming counter plus i, the counter advances by one per
call, and every id at or above the final counter stays vacant. -/
theorem mintSeq_fresh (l : List MintArgs) (s : LedgerState)
    (hfresh : ∀ k, s.next_token_id ≤ k → s.token_map k = none)
    (hw : s.next_token_id + l.length < U128MOD) :
    (mintSeq l s).1 =
      (List.range l.length).map (fun i => Except.ok (s.next_token_id + i)) ∧
    (mintSeq l s).2.next_token_id = s.next_token_id + l.length ∧
    (∀ k, s.next_token_id + l.length ≤ k → (mintSeq l s).2.token_map k = none) := by
  induction l generalizing s with
  | nil =>
    refine ⟨rfl, by simp [mintSeq], ?_⟩
    intro k hk
    exact hfresh k (by simpa using hk)
  | cons a rest ih =>
    simp only [List.length_cons] at hw ⊢
    have hsucc : s.next_token_id + 1 < U128MOD := by omega
    have hfst : (mint a s).1 = Except.ok s.next_token_id := by
      rw [mint_fst, hfresh s.next_token_id (Nat.le_refl _)]
      rfl
    have hnext : (mint a s).2.next_token_id = s.next_token_id + 1 := by
      rw [mint_snd]
      exact Nat.mod_eq_of_lt hsucc
    have hmap : ∀ k, (mint a s).2.token_map k =
        if k = s.next_token_id then
          some (Token.new s.next_token_id a.owner a.name a.logo a.description)
        else s.token_map k := by
      intro k; rw [mint_snd]
    have hfresh1 : ∀ k, (mint a s).2.next_token_id ≤ k →
        (mint a s).2.token_map k = none := by
      intro k hk
      rw [hnext] at hk
      rw [hmap, if_neg (by omega)]
      exact hfresh k (by omega)
    obtain ⟨ih1, ih2, ih3⟩ := ih (mint a s).2 hfresh1 (by rw [hnext]; omega)
    have hsplit : mintSeq (a :: rest) s =
        ((mint a s).1 :: (mintSeq rest (mint a s).2).1,
          (mintSeq rest (mint a s).2).2) := rfl
    refine ⟨?_, ?_, ?_⟩
    · rw [hsplit]
      dsimp only
      rw [hfst, ih1, hnext, range_map_ok_shift]
    · rw [hsplit]
      dsimp only
      rw [ih2, hnext]
      omega
    · intro k hk
      rw [hsplit]
      dsimp only
      apply ih3
      rw [hnext]
      omega

/-- C1: starting from the initialized ledger, every sequence of mint calls
succeeds, the i-th call returning token id i+1 (the assigned ids are
exactly 1, 2, ..., n: strictly increasing from 1 with no gaps or repeats),
and after any prefix of i calls next_token_id equals i+1, so the counter
never decreases and advances exactly once per successful mint; no call in
such a sequence returns an error, so errors never advance the counter. -/
theorem c1_mint_ids_sequential (l : List MintArgs) (hw : l.length + 1 < U128MOD) :
    (mintSeq l initState).1 =
      (List.range l.length).map (fun i => Except.ok (i + 1)) ∧
    (mintSeq l initState).2.next_token_id = l.length + 1 ∧
    (∀ i, i ≤ l.length →
      (mintSeq (l.take i) initState).2.next_token_id = i + 1) := by
  have hfresh : ∀ k, initState.next_token_id ≤ k → initState.token_map k = none :=
    fun k _ => rfl
  have h := mintSeq_fresh l initState hfresh
    (by show 1 + l.length < U128MOD; omega)
  refine ⟨?_, ?_, ?_⟩
  · rw [h.1]
    refine List.map_congr_left (fun a _ => ?_)
    show Except.ok (1 + a) = Except.ok (a + 1)
    rw [Nat.add_comm]
  · rw [h.2.1]
    show 1 + l.length = l.length + 1
    omega
  · intro i hi
    have hti : (l.take i).length = i := by
      rw [List.length_take]
      omega
    have h2 := mintSeq_fresh (l.take i) initState hfresh
      (by show 1 + (l.take i).length < U128MOD; rw [hti]; omega)
    rw [h2.2.1, hti]
    show 1 + i = i + 1
    omega

/-- Witness for c1_mint_ids_sequential: two concrete mints from the fresh
ledger receive ids 1 and 2. -/
theorem c1_mint_ids_sequential_witness :
    (mintSeq [⟨⟨⟨[1]⟩, none⟩, "a", none, none⟩, ⟨⟨⟨[2]⟩, none⟩, "b", none, none⟩]
      initState).1 = [Except.ok 1, Except.ok 2] := by
  have h := c1_mint_ids_sequential
    [⟨⟨⟨[1]⟩, none⟩, "a", none, none⟩, ⟨⟨⟨[2]⟩, none⟩, "b", none, none⟩]
    (by norm_num [U128MOD])
  rw [h.1]
  rfl

/-- The per-element transfer step reads only token_id, from_subaccount and
the destination: elements agreeing on those produce identical outcomes. -/
theorem transferOne_core (caller : Account) (s : LedgerState) (a b : TransferArg)
    (h : SameCore a b) : transferOne caller s a = transferOne caller s b := by
  obtain ⟨h1, h2, h3⟩ := h
  simp only [transferOne, h1, h2, h3]

/-- C10: two icrc7_transfer calls on the same state whose argument lists
differ only in the memo and created_at_time fields of their elements
return the same result vector and leave the same ledger state: the
transfer logic never reads memo or created_at_time. -/
theorem c10_memo_time_independent (caller : Account) (s : LedgerState)
    (args1 args2 : List TransferArg)
    (h : List.Forall₂ SameCore args1 args2) :
    icrc7_transfer caller args1 s = icrc7_transfer caller args2 s := by
  induction h generalizing s with
  | nil => rfl
  | cons hab htl ih =>
    have hone := transferOne_core caller s _ _ hab
    simp only [icrc7_transfer]
    rw [hone, ih]

/-- Witness for c10_memo_time_independent: the same transfer of token 1
with and without a memo and a created_at_time timestamp. -/
theorem c10_memo_time_independent_witness :
    let A : Account := ⟨⟨[1]⟩, none⟩
    let B : Account := ⟨⟨[2]⟩, none⟩
    let tok : Token := Token.new 1 A "t" none none
    let s : LedgerState :=
      { base_token_uri := "", next_token_id := 2,
        token_map := fun k => if k = 1 then some tok else none }
    icrc7_transfer A [⟨1, none, B, some [7, 7], some 99⟩] s =
      icrc7_transfer A [⟨1, none, B, none, none⟩] s := by
  intro A B tok s
  exact c10_memo_time_independent A s _ _
    (List.Forall₂.cons ⟨rfl, rfl, rfl⟩ List.Forall₂.nil)
